import Mathlib

/-
Verification of the replicate_flux_pipeline repository
(src/replicate_flux_pipeline250325.py) against its natural-language
specification.  The Python module is shallowly embedded below: Python
dicts become insertion-ordered association lists, Python runtime values
(str / bool / int) become the inductive type `PyVal`, and every place
where the Python code can raise an exception is made explicit with
`Except String`.  The orchestrator `Pipeline.pipe` is embedded as
`buildRequest` (everything up to the remote call) plus `pipe`, which is
parametrised by the behaviour of the external replicate client.
-/

set_option maxHeartbeats 1000000

namespace RFP

/-- Python runtime values that can appear as parameter values in this
pipeline: strings, booleans and (arbitrary precision) integers. -/
inductive PyVal where
  | str (s : String)
  | bool (b : Bool)
  | int (n : Int)
  deriving DecidableEq

/-- Association list with string keys, modelling a Python dict:
iteration order is insertion order, and assignment to an existing key
updates the value in place, keeping the key's original position. -/
abbrev AList (α : Type) := List (String × α)

/-- Python dict assignment `d[k] = v`. -/
def alInsert {α : Type} : AList α → String → α → AList α
  | [], k, v => [(k, v)]
  | (k', v') :: rest, k, v =>
    if k' = k then (k', v) :: rest else (k', v') :: alInsert rest k v

/-- Python dict lookup `d.get(k)` (`None` when absent). -/
def alGet {α : Type} : AList α → String → Option α
  | [], _ => none
  | (k', v') :: rest, k => if k' = k then some v' else alGet rest k

/-- Python dict lookup with default, `d.get(k, dflt)`. -/
def alGetD {α : Type} (l : AList α) (k : String) (dflt : α) : α :=
  (alGet l k).getD dflt

/-- Characters stripped by Python `str.strip()` (the ASCII whitespace
characters: space, tab, newline, carriage return, vertical tab, form
feed). -/
def isPySpace (c : Char) : Bool :=
  c == ' ' || c == '\t' || c == '\n' || c == '\r' || c == '\x0b' || c == '\x0c'

/-- Python `str.strip()` on a character list: drop whitespace from both
ends. -/
def stripChars (l : List Char) : List Char :=
  ((l.dropWhile isPySpace).reverse.dropWhile isPySpace).reverse

/-- Python `str.strip()`. -/
def pyStrip (s : String) : String :=
  String.mk (stripChars s.data)

/-- Python `str.lower()` (character-wise ASCII lowering; the values this
pipeline lowers are ASCII). -/
def pyLower (s : String) : String :=
  String.mk (s.data.map Char.toLower)

/-- Python `str.endswith(suffix)`. -/
def pyEndsWith (s suf : String) : Bool :=
  List.isSuffixOf suf.data s.data

/-- Index of the first occurrence of the two-character marker `--`,
Python `s.find('--')` (with `none` for `-1`). -/
def firstDDIdx : List Char → Option Nat
  | [] => none
  | c :: rest =>
    if c = '-' ∧ rest.head? = some '-' then some 0
    else (firstDDIdx rest).map (· + 1)

/-- Python `s.split('--')`: split on every non-overlapping occurrence of
the two-character separator, scanning left to right; empty pieces are
kept. -/
def splitOnDD : List Char → List (List Char)
  | [] => [[]]
  | [c] => [[c]]
  | c :: d :: rest =>
    if c = '-' ∧ d = '-' then [] :: splitOnDD rest
    else
      match splitOnDD (d :: rest) with
      | piece :: pieces => (c :: piece) :: pieces
      | [] => [[c]]

/-- Python `tok.split(None, 1)`: the first whitespace-free word, and the
remainder after the first whitespace run (absent when the remainder is
empty). -/
def pySplitWs1 (l : List Char) : List Char × Option (List Char) :=
  let name := l.takeWhile (fun c => !isPySpace c)
  let after := (l.drop name.length).dropWhile isPySpace
  (name, if after.isEmpty then none else some after)

/-- Numeric value of a digit string (the value Python `int` gives a
string of decimal digits). -/
def natOfDigits (l : List Char) : Nat :=
  l.foldl (fun n c => 10 * n + (c.toNat - 48)) 0

/-- Python `str.isdigit()` restricted to ASCII decimal digits (the only
digits exercised by this pipeline). -/
def pyIsDigitStr (s : String) : Bool :=
  !s.data.isEmpty && s.data.all Char.isDigit

/-- Source `convert_value`: case-insensitive "true"/"false" become
booleans, digit-only strings become integers, anything else stays a
string.  Note the Python function is also (erroneously) applied to the
boolean `True` for valueless flags, where `value.lower()` raises
`AttributeError`; that call site is modelled in `parseTokens`. -/
def convert_value (s : String) : PyVal :=
  if pyLower s = "true" then .bool true
  else if pyLower s = "false" then .bool false
  else if pyIsDigitStr s then .int (natOfDigits s.data)
  else .str s

/-- Loop body of `parse_command_params`: process each flag unit.  A unit
with no value token sets `param_value = True` and then calls
`convert_value(True)`, which raises `AttributeError` (`True.lower()`
does not exist), aborting the whole parse; that raise is the `.error`
case here. -/
def parseTokens : List (List Char) → AList PyVal → Except String (AList PyVal)
  | [], params => .ok params
  | tok :: rest, params =>
    let t := stripChars tok
    if t.isEmpty then parseTokens rest params
    else
      match pySplitWs1 t with
      | (name, some v) =>
        parseTokens rest (alInsert params (String.mk name) (convert_value (String.mk v)))
      | (_, none) => .error "AttributeError: bool object has no attribute lower"

/-- Body of the `try:` block of `parse_command_params` (raised exceptions
surface as `.error`). -/
def parse_command_params_core (m : List Char) : Except String (AList PyVal) :=
  match firstDDIdx m with
  | none => .ok [("prompt", .str (String.mk (stripChars m)))]
  | some i =>
    let prompt_part := stripChars (m.take i)
    let param_part := stripChars (m.drop i)
    parseTokens ((splitOnDD param_part).drop 1) [("prompt", .str (String.mk prompt_part))]

/-- Source `parse_command_params` on a character list: any exception in
the body is caught and the whole trimmed message becomes the prompt. -/
def parseChars (m : List Char) : AList PyVal :=
  match parse_command_params_core m with
  | .ok params => params
  | .error _ => [("prompt", .str (String.mk (stripChars m)))]

/-- Source `parse_command_params`. -/
def parse_command_params (s : String) : AList PyVal :=
  parseChars s.data

/-- Character list of a trailing flag sequence: one ` --name value` unit
per (name, value) pair.  `text ++ flagsChars flags` is the message whose
free text is `text` and whose flag units are `flags`, in order. -/
def flagsChars : List (List Char × List Char) → List Char
  | [] => []
  | (nm, vl) :: rest => ' ' :: '-' :: '-' :: (nm ++ ' ' :: (vl ++ flagsChars rest))

/-- Aspect ratio candidates, in the source's order. -/
def AVAILABLE_ASPECT_RATIOS : List String :=
  ["custom", "1:1", "16:9", "3:2", "2:3", "4:5", "5:4", "9:16", "3:4", "4:3"]

/-- Output format candidates, in the source's order. -/
def AVAILABLE_OUTPUT_FORMATS : List String :=
  ["webp", "jpg", "png"]

/-- Allowed image url extensions, in the source's order. -/
def ALLOWED_IMAGE_FORMATS : List String :=
  ["jpeg", "jpg", "png", "gif", "webp"]

/-- The components of `urllib.parse.urlparse` used by the source. -/
structure UrlParts where
  scheme : String
  netloc : String
  path : String

/-- Characters allowed in a URL scheme (Python `scheme_chars`). -/
def schemeChar (c : Char) : Bool :=
  c.isAlphanum || c == '+' || c == '-' || c == '.'

/-- Model of `urllib.parse.urlparse` restricted to the three components
the source reads: `scheme` (before the first `:`, only if non-empty,
starting with a letter and made of scheme characters, lowercased),
`netloc` (after `//`, up to the next `/`, `?` or `#`) and `path` (up to
the query/fragment).  Control-character sanitising done by recent
CPython versions is not modelled; no claim exercises it. -/
def pyUrlsplit (url : String) : UrlParts :=
  let l := url.data
  let sr : List Char × List Char :=
    match l.findIdx? (fun c => c == ':') with
    | some i =>
      if 0 < i && (l.take i).all schemeChar
          && (match l.head? with | some c => c.isAlpha | none => false) then
        ((l.take i).map Char.toLower, l.drop (i + 1))
      else ([], l)
    | none => ([], l)
  let nr : List Char × List Char :=
    match sr.2 with
    | '/' :: '/' :: r =>
      let nl := r.takeWhile (fun c => !(c == '/' || c == '?' || c == '#'))
      (nl, r.drop nl.length)
    | rest => ([], rest)
  let path := (nr.2.takeWhile (fun c => c != '#')).takeWhile (fun c => c != '?')
  ⟨String.mk sr.1, String.mk nr.1, String.mk path⟩

/-- Source `validate_image_url`: require a non-empty scheme and netloc
and a lowercased path ending in an allowed image extension. -/
def validate_image_url (url : String) : Bool :=
  let parsed := pyUrlsplit url
  if parsed.scheme = "" || parsed.netloc = "" then false
  else ALLOWED_IMAGE_FORMATS.any (fun fmt => pyEndsWith (pyLower parsed.path) ("." ++ fmt))

/-- `validate_image_url` as called from `pipe` with an arbitrary parsed
value: `urlparse` raises on non-string input, the surrounding
`try/except` turns that into `False`. -/
def validate_image_url_py : PyVal → Bool
  | .str s => validate_image_url s
  | _ => false

/-- One row update of difflib's longest-matching-block search: the run
length of the common block ending at `(i, j)` is one more than the run
ending at `(i - 1, j - 1)` when the characters match, else zero.  The
argument list is the previous row shifted right by one. -/
def flmRowNext (ai : Char) : List Char → List Nat → List Nat
  | [], _ => []
  | bj :: bs, p :: ps => (if bj = ai then p + 1 else 0) :: flmRowNext ai bs ps
  | bj :: bs, [] => (if bj = ai then 1 else 0) :: flmRowNext ai bs []

/-- Scan one row for a strictly longer block, difflib's update
`if k > bestsize: besti, bestj, bestsize = i-k+1, j-k+1, k`. -/
def flmBestInRow (i : Nat) (row : List Nat) (best : Nat × Nat × Nat) : Nat × Nat × Nat :=
  (row.foldl
    (fun st k =>
      (if st.1.2.2 < k then (i + 1 - k, st.2 + 1 - k, k) else st.1, st.2 + 1))
    (best, 0)).1

/-- difflib `SequenceMatcher.find_longest_match` (no junk, as in this
source: candidate strings are short, so autojunk never fires): the first
longest common contiguous block, as `(start in a, start in b, size)`. -/
def findLongestMatch (a b : List Char) : Nat × Nat × Nat :=
  (a.foldl
    (fun st ai =>
      let row := flmRowNext ai b (0 :: st.2.1)
      (flmBestInRow st.2.2 row st.1, row, st.2.2 + 1))
    ((0, 0, 0), b.map (fun _ => 0), 0)).1

/-- Total size of difflib's matching blocks (the `M` of `ratio`),
computed by the same divide-and-conquer around the longest match.  The
fuel argument only serves termination; `length a + length b + 1` always
suffices. -/
def matchedTotal : Nat → List Char → List Char → Nat
  | 0, _, _ => 0
  | fuel + 1, a, b =>
    let m := findLongestMatch a b
    if m.2.2 = 0 then 0
    else
      matchedTotal fuel (a.take m.1) (b.take m.2.1) + m.2.2
        + matchedTotal fuel (a.drop (m.1 + m.2.2)) (b.drop (m.2.1 + m.2.2))

/-- difflib `SequenceMatcher.ratio()`: `2 * M / T` as an exact rational
(`1` when both strings are empty, as in difflib). -/
def simScore (a b : List Char) : Rat :=
  if a.length + b.length = 0 then 1
  else (2 * (matchedTotal (a.length + b.length + 1) a b) : Rat) / (a.length + b.length)

/-- Python string comparison (codepoint lexicographic), used for the
tuple tie-break inside `heapq.nlargest`. -/
def ltChars : List Char → List Char → Bool
  | [], [] => false
  | [], _ :: _ => true
  | _ :: _, [] => false
  | c :: cs, d :: ds => if c = d then ltChars cs ds else decide (c < d)

/-- difflib `get_close_matches(word, possibilities, n=1, cutoff)`: keep
the possibilities whose ratio clears the cutoff and return the best one
(largest `(ratio, word)` pair, matching `heapq.nlargest` on score-word
tuples; difflib's quick-ratio prefilters are upper bounds of `ratio`, so
they do not change the result). -/
def get_close_matches (word : String) (poss : List String) (cutoff : Rat) : List String :=
  let scored := poss.filterMap
    (fun x =>
      let r := simScore x.data word.data
      if cutoff ≤ r then some (r, x) else none)
  match scored with
  | [] => []
  | s :: rest =>
    [(rest.foldl
        (fun best cur =>
          if best.1 < cur.1 ∨ (best.1 = cur.1 ∧ ltChars best.2.data cur.2.data) then cur
          else best)
        s).2]

/-- The dict comprehension `{c.lower(): c for c in candidates}` of
`fuzzy_match`. -/
def candidateMap (candidates : List String) : AList String :=
  candidates.foldl (fun m c => alInsert m (pyLower c) c) []

/-- Source `fuzzy_match`: defaults for falsy or "none" input, exact
(case-sensitive) match, then case-insensitive close matching with
cutoff 0.6 over a lowercased candidate map (`input_lower`, the lowered
stripped input, is inlined at its single use).  The lookup of the
returned match in the candidate map cannot miss, since matches are
drawn from the map's keys; the `getD` default is therefore never
taken. -/
def fuzzy_match (input_text : String) (candidates : List String) (default : String) : String :=
  if input_text = "" ∨ pyLower input_text = "none" then default
  else if input_text ∈ candidates then input_text
  else
    match get_close_matches (pyStrip (pyLower input_text))
        ((candidateMap candidates).map Prod.fst) (3 / 5) with
    | m :: _ => (alGet (candidateMap candidates) m).getD default
    | [] => default

/-- `fuzzy_match` as called from `pipe` with an arbitrary parsed value:
falsy values short-circuit to the default at `if not input_text`; truthy
non-strings raise at `input_text.lower()`. -/
def fuzzy_match_py (v : PyVal) (candidates : List String) (default : String) :
    Except String String :=
  match v with
  | .str s => .ok (fuzzy_match s candidates default)
  | .bool b => if b then .error "AttributeError: bool object has no attribute lower" else .ok default
  | .int n =>
    if n = 0 then .ok default else .error "AttributeError: int object has no attribute lower"

/-- Clamp to `[256, 1440]` (`max(256, min(1440, x))`). -/
def clamp256_1440 (n : Int) : Int := max 256 (min 1440 n)

/-- Python `round(w / 32) * 32` for `0 ≤ w ≤ 1440`: `w / 32` is exact in
binary floating point there (32 is a power of two and the quotient needs
few bits), so Python's float `round` is exact rational rounding with
ties to even, which this integer formula implements. -/
def pyRound32 (w : Int) : Int :=
  let q := w / 32
  let r := w % 32
  (if r < 16 then q else if 16 < r then q + 1 else if q % 2 = 0 then q else q + 1) * 32

/-- Source `Pipeline.validate_dimensions` on its declared
`Optional[int]` arguments: both absent-or-nothing, else clamp each to
`[256, 1440]` and round to a multiple of 32. -/
def validate_dimensions : Option Int → Option Int → Option Int × Option Int
  | some w, some h => (some (pyRound32 (clamp256_1440 w)), some (pyRound32 (clamp256_1440 h)))
  | _, _ => (none, none)

/-- Python `str.strip()` on an arbitrary parsed value: non-strings have
no `strip` attribute. -/
def pyStripVal : PyVal → Except String String
  | .str s => .ok (pyStrip s)
  | .bool _ => .error "AttributeError: bool object has no attribute strip"
  | .int _ => .error "AttributeError: int object has no attribute strip"

/-- Numeric view of a parsed value as used by Python's `min`/`max`
(booleans are integers; strings do not compare with integers and
raise). -/
def pyNumVal : PyVal → Except String Int
  | .str _ => .error "TypeError: str is not comparable with int"
  | .bool b => .ok (if b then 1 else 0)
  | .int n => .ok n

/-- Python `int(string)`: optional surrounding whitespace, optional
sign, then decimal digits (underscore grouping is not modelled; no
claim exercises it). -/
def pyIntOfChars (l : List Char) : Option Int :=
  match stripChars l with
  | '-' :: ds => if !ds.isEmpty && ds.all Char.isDigit then some (-(natOfDigits ds : Int)) else none
  | '+' :: ds => if !ds.isEmpty && ds.all Char.isDigit then some ((natOfDigits ds : Int)) else none
  | ds => if !ds.isEmpty && ds.all Char.isDigit then some ((natOfDigits ds : Int)) else none

/-- Python `int(value)` on a parsed value. -/
def pyIntVal : PyVal → Except String Int
  | .int n => .ok n
  | .bool b => .ok (if b then 1 else 0)
  | .str s =>
    match pyIntOfChars s.data with
    | some n => .ok n
    | none => .error ("ValueError: invalid literal for int with base 10: " ++ s)

/-- Python truthiness (`bool(value)`) of a parsed value. -/
def pyTruthy : PyVal → Bool
  | .str s => !s.isEmpty
  | .bool b => b
  | .int n => decide (n ≠ 0)

/-- Python `min(hi, max(lo, value))` on a parsed value. -/
def pyClampVal (lo hi : Int) (v : PyVal) : Except String Int :=
  match pyNumVal v with
  | .ok n => .ok (min hi (max lo n))
  | .error m => .error m

/-- Outcome of `Pipeline.pipe` up to (and excluding) the remote call:
an early user-facing return, an exception raised inside the `try:`
block, or the payload handed to the replicate client. -/
inductive BuildOutcome where
  | reply (s : String)
  | exc (msg : String)
  | send (payload : AList PyVal)
  deriving DecidableEq

/-- One optional parameter of the tail of the payload build: the Python
pattern `if key in params: input_params[key] = f(params[key])`. -/
def tailStep (params : AList PyVal) (key : String) (f : PyVal → Except String PyVal)
    (pl : AList PyVal) : Except String (AList PyVal) :=
  match alGet params key with
  | none => .ok pl
  | some v =>
    match f v with
    | .ok v' => .ok (alInsert pl key v')
    | .error m => .error m

/-- Lines 318-328 of the source: seed, prompt_upsampling,
output_format, output_quality and safety_tolerance are appended in that
(source) order. -/
def addTail (params pl0 : AList PyVal) : Except String (AList PyVal) :=
  match tailStep params "seed" (fun v => (pyIntVal v).map PyVal.int) pl0 with
  | .error m => .error m
  | .ok pl1 =>
  match tailStep params "prompt_upsampling" (fun v => .ok (.bool (pyTruthy v))) pl1 with
  | .error m => .error m
  | .ok pl2 =>
  match tailStep params "output_format"
      (fun v => (fuzzy_match_py v AVAILABLE_OUTPUT_FORMATS "webp").map PyVal.str) pl2 with
  | .error m => .error m
  | .ok pl3 =>
  match tailStep params "output_quality" (fun v => (pyClampVal 0 100 v).map PyVal.int) pl3 with
  | .error m => .error m
  | .ok pl4 =>
  match tailStep params "safety_tolerance" (fun v => (pyClampVal 1 6 v).map PyVal.int) pl4 with
  | .error m => .error m
  | .ok pl5 => .ok pl5

/-- `validate_dimensions` as called from `pipe`, where the arguments
come from the parsed dict: the None-check fires first, then the clamps
raise on strings (booleans are integers). -/
def validate_dimensions_pipe : Option PyVal → Option PyVal → Except String (Option Int × Option Int)
  | some w, some h =>
    match pyNumVal w with
    | .error m => .error m
    | .ok wi =>
      match pyNumVal h with
      | .error m => .error m
      | .ok hi => .ok (validate_dimensions (some wi) (some hi))
  | _, _ => .ok (none, none)

/-- Wrap the tail build into an outcome. -/
def afterTail (params pl : AList PyVal) : BuildOutcome :=
  match addTail params pl with
  | .error m => .exc m
  | .ok pl' => .send pl'

/-- Custom-dimension handling of `pipe` (lines 308-316): only for
aspect_ratio "custom", and `if width and height:` keeps the pair only
when both are present and truthy. -/
def afterDims (params pl : AList PyVal) (ar : String) : BuildOutcome :=
  if ar = "custom" then
    match validate_dimensions_pipe (alGet params "width") (alGet params "height") with
    | .error m => .exc m
    | .ok (some w, some h) =>
      if w ≠ 0 ∧ h ≠ 0 then
        afterTail params (alInsert (alInsert pl "width" (.int w)) "height" (.int h))
      else afterTail params pl
    | .ok _ => afterTail params pl
  else afterTail params pl

/-- The user-facing image_prompt validation error of `pipe`. -/
def imagePromptError : String :=
  "Error: image_prompt must be a valid URL pointing to a jpeg, png, gif, or webp image"

/-- image_prompt handling of `pipe` (lines 301-306): validate and
append, or return the validation error before any remote call. -/
def afterImage (params pl : AList PyVal) (ar : String) : BuildOutcome :=
  match alGet params "image_prompt" with
  | none => afterDims params pl ar
  | some v =>
    if validate_image_url_py v then afterDims params (alInsert pl "image_prompt" v) ar
    else .reply imagePromptError

/-- `Pipeline.pipe` up to the remote call: parse, require a non-empty
stripped prompt, normalise the aspect ratio, then build the payload in
the source's insertion order. -/
def buildRequest (user_message : String) : BuildOutcome :=
  let params := parse_command_params user_message
  match pyStripVal (alGetD params "prompt" (.str "")) with
  | .error m => .exc m
  | .ok prompt0 =>
    if prompt0 = "" then .reply "Error: Prompt is required"
    else
      match fuzzy_match_py (alGetD params "aspect_ratio" (.str "1:1")) AVAILABLE_ASPECT_RATIOS "1:1" with
      | .error m => .exc m
      | .ok ar =>
        afterImage params [("prompt", .str prompt0), ("aspect_ratio", .str ar)] ar

/-- Source `Pipeline.pipe`, parametrised by the remote replicate call
(`.error` models an exception raised by the client, `.ok` its returned
output, with the empty string for a falsy result).  Every exception
raised inside the `try:` block is caught and wrapped; the unused
`model_id`, `messages` and `body` parameters are omitted. -/
def pipe (remote : AList PyVal → Except String String) (user_message : String) : String :=
  match buildRequest user_message with
  | .reply s => s
  | .exc m => "Error generating image: " ++ m
  | .send payload =>
    match remote payload with
    | .error m => "Error generating image: " ++ m
    | .ok output =>
      if output ≠ "" then "![image](" ++ output ++ ")\n"
      else "No image was generated."

/-! Helper lemmas about the dict model. -/

theorem alGet_alInsert {α : Type} (l : AList α) (k k' : String) (v : α) :
    alGet (alInsert l k v) k' = if k = k' then some v else alGet l k' := by
  induction l with
  | nil => simp [alInsert, alGet]
  | cons e rest ih =>
    obtain ⟨a, b⟩ := e
    by_cases hak : a = k
    · subst hak
      by_cases hk' : a = k'
      · subst hk'
        simp [alInsert, alGet]
      · simp [alInsert, alGet, hk']
    · by_cases hk' : a = k'
      · subst hk'
        have hka : ¬ k = a := fun h => hak h.symm
        simp [alInsert, alGet, hak, hka]
      · simp [alInsert, alGet, hak, hk', ih]

theorem alGet_alInsert_ne {α : Type} (l : AList α) (k k' : String) (v : α) (h : k ≠ k') :
    alGet (alInsert l k v) k' = alGet l k' := by
  rw [alGet_alInsert, if_neg h]

theorem alGet_alInsert_same {α : Type} (l : AList α) (k : String) (v : α) :
    alGet (alInsert l k v) k = some v := by
  rw [alGet_alInsert, if_pos rfl]

/-! Helper lemmas about Python strip. -/

theorem exists_dropWhile_append (p : Char → Bool) (l : List Char) :
    ∃ t, t ++ l.dropWhile p = l := by
  induction l with
  | nil => exact ⟨[], rfl⟩
  | cons a t ih =>
    by_cases hp : p a
    · obtain ⟨u, hu⟩ := ih
      exact ⟨a :: u, by simp [List.dropWhile_cons, hp, hu]⟩
    · exact ⟨[], by simp [List.dropWhile_cons, hp]⟩

theorem head_dropWhile_false (p : Char → Bool) (l : List Char) :
    ∀ c, (l.dropWhile p).head? = some c → p c = false := by
  induction l with
  | nil => intro c h; simp [List.dropWhile] at h
  | cons a t ih =>
    intro c h
    rw [List.dropWhile_cons] at h
    by_cases hp : p a
    · rw [if_pos hp] at h
      exact ih c h
    · rw [if_neg hp] at h
      simp only [List.head?_cons, Option.some.injEq] at h
      subst h
      exact Bool.eq_false_iff.mpr hp

theorem stripChars_eq_self {l : List Char}
    (hh : ∀ c, l.head? = some c → isPySpace c = false)
    (hl : ∀ c, l.getLast? = some c → isPySpace c = false) : stripChars l = l := by
  unfold stripChars
  have h1 : l.dropWhile isPySpace = l := by
    cases l with
    | nil => rfl
    | cons a t =>
      rw [List.dropWhile_cons, if_neg (by rw [hh a rfl]; exact Bool.false_ne_true)]
  rw [h1]
  have h2 : l.reverse.dropWhile isPySpace = l.reverse := by
    cases hr : l.reverse with
    | nil => rfl
    | cons a t =>
      have ha : l.getLast? = some a := by
        rw [← List.head?_reverse, hr, List.head?_cons]
      rw [List.dropWhile_cons, if_neg (by rw [hl a ha]; exact Bool.false_ne_true)]
  rw [h2, List.reverse_reverse]

theorem stripChars_head (l : List Char) :
    ∀ c, (stripChars l).head? = some c → isPySpace c = false := by
  intro c h
  obtain ⟨t, ht⟩ := exists_dropWhile_append isPySpace ((l.dropWhile isPySpace).reverse)
  have hy : (stripChars l) ++ t.reverse = l.dropWhile isPySpace := by
    unfold stripChars
    rw [← List.reverse_append, ht, List.reverse_reverse]
  apply head_dropWhile_false isPySpace l c
  rw [← hy]
  cases hsl : stripChars l with
  | nil => rw [hsl] at h; simp at h
  | cons a u =>
    rw [hsl] at h
    simp only [List.head?_cons, Option.some.injEq] at h
    subst h
    simp

theorem stripChars_getLast (l : List Char) :
    ∀ c, (stripChars l).getLast? = some c → isPySpace c = false := by
  intro c h
  unfold stripChars at h
  rw [List.getLast?_reverse] at h
  exact head_dropWhile_false _ _ c h

theorem stripChars_idem (l : List Char) : stripChars (stripChars l) = stripChars l :=
  stripChars_eq_self (stripChars_head l) (stripChars_getLast l)

theorem pyStrip_idem (s : String) : pyStrip (pyStrip s) = pyStrip s := by
  show String.mk (stripChars (stripChars s.data)) = String.mk (stripChars s.data)
  rw [stripChars_idem]

/-! Helper lemmas about clamping and rounding. -/

theorem clamp256_1440_bounds (n : Int) : 256 ≤ clamp256_1440 n ∧ clamp256_1440 n ≤ 1440 :=
  ⟨le_max_left 256 (min 1440 n), max_le (by norm_num) (min_le_left 1440 n)⟩

theorem pyRound32_spec (w : Int) (h1 : 256 ≤ w) (h2 : w ≤ 1440) :
    pyRound32 w % 32 = 0 ∧ 256 ≤ pyRound32 w ∧ pyRound32 w ≤ 1440 ∧
      -16 ≤ pyRound32 w - w ∧ pyRound32 w - w ≤ 16 ∧
      (w % 32 = 16 → (pyRound32 w / 32) % 2 = 0) ∧
      (w % 32 ≠ 16 → -15 ≤ pyRound32 w - w ∧ pyRound32 w - w ≤ 15) := by
  simp only [pyRound32]
  split_ifs <;> refine ⟨by omega, by omega, by omega, by omega, by omega, ?_, by omega⟩ <;>
    intro hmid <;> omega

/-! Claim theorems. -/

/-- C1: the claim says a flag with no following value token is stored
with raw value boolean true next to the prompt.  The code instead feeds
the boolean `True` to `convert_value`, whose `value.lower()` raises
`AttributeError`, so the whole parse falls back to treating the entire
trimmed message as the prompt and every flag is dropped:
`parse_command_params('a cat --prompt_upsampling')` yields
`{'prompt': 'a cat --prompt_upsampling'}`, not
`{'prompt': 'a cat', 'prompt_upsampling': True}`. -/
theorem C1_valueless_flag_aborts_parse :
    parse_command_params "a cat --prompt_upsampling" =
      [("prompt", PyVal.str "a cat --prompt_upsampling")] ∧
    parse_command_params_core ("a cat --prompt_upsampling").data =
      .error "AttributeError: bool object has no attribute lower" ∧
    [("prompt", PyVal.str "a cat --prompt_upsampling")] ≠
      [("prompt", PyVal.str "a cat"), ("prompt_upsampling", PyVal.bool true)] :=
  ⟨rfl, rfl, by decide⟩

/-- C2: the claim (and the source's own docstring example) says quoted
text containing `--` inside the prompt portion is preserved verbatim.
In fact `find('--')` locates the first `--` even inside the quotes, and
`param_part.split('--')` re-splits everything after it, so the docstring
example yields a truncated prompt and a spurious parameter `very`. -/
theorem C2_first_marker_splits_quoted_prompt :
    parse_command_params "A painting of a \"sunset -- very beautiful\" --aspect_ratio 16:9" =
      [("prompt", PyVal.str "A painting of a \"sunset"),
       ("very", PyVal.str "beautiful\""), ("aspect_ratio", PyVal.str "16:9")] ∧
    alGet (parse_command_params "A painting of a \"sunset -- very beautiful\" --aspect_ratio 16:9")
        "prompt" ≠ some (PyVal.str "A painting of a \"sunset -- very beautiful\"") :=
  ⟨rfl, by decide⟩

/-- C3: the claim (and the source's x-order comments) say the payload
keys are inserted in schema order prompt, image_prompt, aspect_ratio,
width, height, safety_tolerance, seed, prompt_upsampling, output_format,
output_quality.  The code actually inserts aspect_ratio before
image_prompt and safety_tolerance last, as this concrete run shows. -/
theorem C3_payload_key_order :
    buildRequest "a cat --image_prompt https://x.com/a.png --safety_tolerance 3" =
      .send [("prompt", PyVal.str "a cat"), ("aspect_ratio", PyVal.str "1:1"),
             ("image_prompt", PyVal.str "https://x.com/a.png"),
             ("safety_tolerance", PyVal.int 3)] ∧
    ([("prompt", PyVal.str "a cat"), ("aspect_ratio", PyVal.str "1:1"),
      ("image_prompt", PyVal.str "https://x.com/a.png"),
      ("safety_tolerance", PyVal.int 3)].map Prod.fst =
        ["prompt", "aspect_ratio", "image_prompt", "safety_tolerance"]) ∧
    (["prompt", "aspect_ratio", "image_prompt", "safety_tolerance"] ≠
      ["prompt", "image_prompt", "aspect_ratio", "safety_tolerance"]) :=
  ⟨rfl, rfl, by decide⟩

/-- C4 counterexample: the claim demands round-half-away-from-zero at
exact midpoints, so clamped 1232 (38.5 times 32) would go up to 1248.
Python's float `round` rounds half to even, so the code returns 1216. -/
theorem C4_counterexample :
    validate_dimensions (some 1232) (some 1232) = (some 1216, some 1216) ∧
    ((1216 : Int) ≠ 1248) :=
  ⟨rfl, by decide⟩

/-- C4 (amended): with both dimensions present, validate_dimensions
rounds each clamped value to a nearest multiple of 32 (within 16, and
strictly within 16 away from midpoints), and at exact .5 midpoints it
rounds half to even (the chosen multiple of 32 has an even quotient),
e.g. a clamped value of 1232 rounds down to 1216. -/
theorem C4_round_half_to_even :
    ∀ (w h w' h' : Int),
      validate_dimensions (some w) (some h) = (some w', some h') →
      (w' % 32 = 0 ∧ -16 ≤ w' - clamp256_1440 w ∧ w' - clamp256_1440 w ≤ 16 ∧
        (clamp256_1440 w % 32 = 16 → (w' / 32) % 2 = 0) ∧
        (clamp256_1440 w % 32 ≠ 16 → -15 ≤ w' - clamp256_1440 w ∧ w' - clamp256_1440 w ≤ 15)) ∧
      (h' % 32 = 0 ∧ -16 ≤ h' - clamp256_1440 h ∧ h' - clamp256_1440 h ≤ 16 ∧
        (clamp256_1440 h % 32 = 16 → (h' / 32) % 2 = 0) ∧
        (clamp256_1440 h % 32 ≠ 16 → -15 ≤ h' - clamp256_1440 h ∧ h' - clamp256_1440 h ≤ 15)) := by
  intro w h w' h' heq
  simp only [validate_dimensions, Prod.mk.injEq, Option.some.injEq] at heq
  obtain ⟨hw, hh⟩ := heq
  subst hw; subst hh
  constructor
  · have hb := clamp256_1440_bounds w
    obtain ⟨p1, _, _, p4, p5, p6, p7⟩ := pyRound32_spec (clamp256_1440 w) hb.1 hb.2
    exact ⟨p1, p4, p5, p6, p7⟩
  · have hb := clamp256_1440_bounds h
    obtain ⟨p1, _, _, p4, p5, p6, p7⟩ := pyRound32_spec (clamp256_1440 h) hb.1 hb.2
    exact ⟨p1, p4, p5, p6, p7⟩

/-- C4 witness: at width 1232 and height 800 the rounded width 1216 is a
multiple of 32 whose quotient is even (1232 clamps to itself and sits at
an exact midpoint). -/
theorem C4_round_half_to_even_witness :
    (1216 : Int) % 32 = 0 ∧ ((1216 : Int) / 32) % 2 = 0 :=
  ⟨(C4_round_half_to_even 1232 800 1216 800 rfl).1.1,
   (C4_round_half_to_even 1232 800 1216 800 rfl).1.2.2.2.1 (by decide)⟩

/-- C5: with both dimensions present, validate_dimensions returns a pair
of multiples of 32 inside [256, 1440]; with either absent it returns
(none, none) — always both values or neither. -/
theorem C5_dims_total :
    ∀ (w? h? : Option Int),
      ((w? = none ∨ h? = none) → validate_dimensions w? h? = (none, none)) ∧
      (∀ w h, w? = some w → h? = some h →
        ∃ w' h', validate_dimensions w? h? = (some w', some h') ∧
          w' % 32 = 0 ∧ 256 ≤ w' ∧ w' ≤ 1440 ∧ h' % 32 = 0 ∧ 256 ≤ h' ∧ h' ≤ 1440) := by
  intro w? h?
  constructor
  · intro hn
    cases w? with
    | none => cases h? <;> rfl
    | some w =>
      cases h? with
      | none => rfl
      | some h => rcases hn with hn | hn <;> simp at hn
  · intro w h hw hh
    subst hw; subst hh
    refine ⟨_, _, rfl, ?_⟩
    have hbw := clamp256_1440_bounds w
    have hbh := clamp256_1440_bounds h
    obtain ⟨q1, q2, q3, _⟩ := pyRound32_spec (clamp256_1440 w) hbw.1 hbw.2
    obtain ⟨r1, r2, r3, _⟩ := pyRound32_spec (clamp256_1440 h) hbh.1 hbh.2
    exact ⟨q1, q2, q3, r1, r2, r3⟩

/-- C5 witness: the none case and the spec's example (100, 2000), which
clamps to (256, 1440) and rounds to itself. -/
theorem C5_dims_total_witness :
    validate_dimensions none (some 500) = (none, none) ∧
    ∃ w' h', validate_dimensions (some 100) (some 2000) = (some w', some h') ∧
      w' % 32 = 0 ∧ 256 ≤ w' ∧ w' ≤ 1440 ∧ h' % 32 = 0 ∧ 256 ≤ h' ∧ h' ≤ 1440 :=
  ⟨(C5_dims_total none (some 500)).1 (Or.inl rfl),
   (C5_dims_total (some 100) (some 2000)).2 100 2000 rfl rfl⟩

/-- C6 counterexample: the claim quantifies over every candidate list,
but a candidate equal (case-insensitively) to "none" is captured by the
default branch before the exact-match test, so normalising it is not the
identity: with candidates ["none"] and default "1:1" the member "none"
maps to "1:1". -/
theorem C6_counterexample :
    ("none" : String) ∈ ["none"] ∧
    fuzzy_match "none" ["none"] "1:1" = "1:1" ∧ ("1:1" : String) ≠ "none" :=
  ⟨by decide, rfl, by decide⟩

/-- C6 (amended): the empty string and any case-variant of "none" map to
the default, and every candidate that is neither empty nor a case-variant
of "none" is returned unchanged; in particular normalisation is the
identity on all members of the aspect-ratio and output-format candidate
sets. -/
theorem C6_enum_normalization :
    ∀ (candidates : List String) (d s c : String),
      fuzzy_match "" candidates d = d ∧
      (pyLower s = "none" → fuzzy_match s candidates d = d) ∧
      (c ∈ candidates → c ≠ "" → pyLower c ≠ "none" → fuzzy_match c candidates d = c) ∧
      (∀ a ∈ AVAILABLE_ASPECT_RATIOS, fuzzy_match a AVAILABLE_ASPECT_RATIOS "1:1" = a) ∧
      (∀ f ∈ AVAILABLE_OUTPUT_FORMATS, fuzzy_match f AVAILABLE_OUTPUT_FORMATS "webp" = f) := by
  intro candidates d s c
  refine ⟨?_, ?_, ?_, by decide, by decide⟩
  · unfold fuzzy_match
    rw [if_pos (Or.inl rfl)]
  · intro hs
    unfold fuzzy_match
    rw [if_pos (Or.inr hs)]
  · intro hc hne hn
    unfold fuzzy_match
    rw [if_neg (fun hor => hor.elim hne hn)]
    simp [hc]

/-- C6 witness: an already-canonical aspect ratio is unchanged and a
case-variant of "none" yields the output-format default. -/
theorem C6_enum_normalization_witness :
    fuzzy_match "3:2" AVAILABLE_ASPECT_RATIOS "1:1" = "3:2" ∧
    fuzzy_match "NoNe" AVAILABLE_OUTPUT_FORMATS "webp" = "webp" :=
  ⟨(C6_enum_normalization AVAILABLE_ASPECT_RATIOS "1:1" "x" "3:2").2.2.1
      (by decide) (by decide) (by decide),
   (C6_enum_normalization AVAILABLE_OUTPUT_FORMATS "webp" "NoNe" "x").2.1 (by decide)⟩

/-- C9: pipe is a total function into strings (by construction of the
embedding every exception site is caught): a tokenizer failure makes the
parser return the whole trimmed message as the prompt with all flags
dropped, an exception while building the request is returned as
"Error generating image: ...", and so is an exception raised by the
remote call. -/
theorem C9_error_absorption :
    ∀ (msg : String) (remote : AList PyVal → Except String String),
      (∀ e, parse_command_params_core msg.data = .error e →
        parse_command_params msg = [("prompt", PyVal.str (pyStrip msg))]) ∧
      (∀ m, buildRequest msg = .exc m →
        pipe remote msg = "Error generating image: " ++ m) ∧
      (∀ p m, buildRequest msg = .send p → remote p = .error m →
        pipe remote msg = "Error generating image: " ++ m) := by
  intro msg remote
  refine ⟨?_, ?_, ?_⟩
  · intro e he
    unfold parse_command_params parseChars
    rw [he]
    rfl
  · intro m hm
    unfold pipe
    rw [hm]
  · intro p m hp hm
    unfold pipe
    simp only [hp]
    simp only [hm]

/-- C9 witness: a valueless flag aborts the tokenizer and degrades to a
prompt-only parse; a bad seed raises while building and is wrapped; a
remote failure is wrapped. -/
theorem C9_error_absorption_witness :
    parse_command_params "a --x" = [("prompt", PyVal.str (pyStrip "a --x"))] ∧
    pipe (fun _ => .ok "") "a cat --seed zz" =
      "Error generating image: " ++ "ValueError: invalid literal for int with base 10: zz" ∧
    pipe (fun _ => .error "boom") "a cat" = "Error generating image: " ++ "boom" :=
  ⟨(C9_error_absorption "a --x" (fun _ => .ok "")).1
      "AttributeError: bool object has no attribute lower" rfl,
   (C9_error_absorption "a cat --seed zz" (fun _ => .ok "")).2.1
      "ValueError: invalid literal for int with base 10: zz" rfl,
   (C9_error_absorption "a cat" (fun _ => .error "boom")).2.2
      [("prompt", PyVal.str "a cat"), ("aspect_ratio", PyVal.str "1:1")] "boom" rfl rfl⟩

/-! Inversion lemmas for the payload build. -/

theorem tailStep_ok_get {params : AList PyVal} {key : String} {f : PyVal → Except String PyVal}
    {pl pl' : AList PyVal} (h : tailStep params key f pl = .ok pl') :
    ∀ k, key ≠ k → alGet pl' k = alGet pl k := by
  intro k hk
  unfold tailStep at h
  split at h
  · injection h with h'
    subst h'
    rfl
  · split at h
    · injection h with h'
      subst h'
      exact alGet_alInsert_ne _ _ _ _ hk
    · exact Except.noConfusion h

theorem addTail_ok_get {params pl pl' : AList PyVal} (h : addTail params pl = .ok pl') :
    ∀ k, ¬ k ∈ (["seed", "prompt_upsampling", "output_format", "output_quality",
      "safety_tolerance"] : List String) → alGet pl' k = alGet pl k := by
  intro k hk
  simp only [List.mem_cons, List.not_mem_nil, or_false, not_or] at hk
  obtain ⟨h1, h2, h3, h4, h5⟩ := hk
  unfold addTail at h
  split at h
  · exact Except.noConfusion h
  rename_i pl1 heq1
  split at h
  · exact Except.noConfusion h
  rename_i pl2 heq2
  split at h
  · exact Except.noConfusion h
  rename_i pl3 heq3
  split at h
  · exact Except.noConfusion h
  rename_i pl4 heq4
  split at h
  · exact Except.noConfusion h
  rename_i pl5 heq5
  injection h with h'
  subst h'
  rw [tailStep_ok_get heq5 k (fun he => h5 he.symm),
      tailStep_ok_get heq4 k (fun he => h4 he.symm),
      tailStep_ok_get heq3 k (fun he => h3 he.symm),
      tailStep_ok_get heq2 k (fun he => h2 he.symm),
      tailStep_ok_get heq1 k (fun he => h1 he.symm)]

theorem afterTail_send {params pl p : AList PyVal} (h : afterTail params pl = .send p) :
    addTail params pl = .ok p := by
  unfold afterTail at h
  split at h
  · exact BuildOutcome.noConfusion h
  · rename_i pl5 heq
    injection h with h'
    subst h'
    exact heq

theorem afterTail_ne_reply (params pl : AList PyVal) (s : String) :
    afterTail params pl ≠ .reply s := by
  unfold afterTail
  split
  · exact fun h => BuildOutcome.noConfusion h
  · exact fun h => BuildOutcome.noConfusion h

theorem afterDims_ne_reply (params pl : AList PyVal) (ar s : String) :
    afterDims params pl ar ≠ .reply s := by
  unfold afterDims
  split
  · split
    · exact fun h => BuildOutcome.noConfusion h
    · split
      · exact afterTail_ne_reply _ _ _
      · exact afterTail_ne_reply _ _ _
    · exact afterTail_ne_reply _ _ _
  · exact afterTail_ne_reply _ _ _

theorem afterDims_send {params pl : AList PyVal} {ar : String} {p : AList PyVal}
    (h : afterDims params pl ar = .send p)
    (hw : alGet pl "width" = none) (hh : alGet pl "height" = none) :
    (∀ k, ¬ k ∈ (["seed", "prompt_upsampling", "output_format", "output_quality",
        "safety_tolerance"] : List String) → k ≠ "width" → k ≠ "height" →
      alGet p k = alGet pl k) ∧
    ((alGet p "width" = none ∧ alGet p "height" = none) ∨
      (ar = "custom" ∧ ∃ wv hv : Int,
        alGet p "width" = some (.int wv) ∧ alGet p "height" = some (.int hv))) := by
  unfold afterDims at h
  split at h
  · -- aspect ratio is "custom"
    rename_i hc
    split at h
    · exact BuildOutcome.noConfusion h
    · -- validated dimensions are (some wv, some hv)
      rename_i wv hv heq
      split at h
      · -- both truthy: width and height are inserted
        have hget := addTail_ok_get (afterTail_send h)
        constructor
        · intro k hk hkw hkh
          rw [hget k hk,
              alGet_alInsert_ne _ _ _ _ (fun he => hkh he.symm),
              alGet_alInsert_ne _ _ _ _ (fun he => hkw he.symm)]
        · refine Or.inr ⟨hc, wv, hv, ?_, ?_⟩
          · rw [hget "width" (by decide),
                alGet_alInsert_ne _ _ _ _ (by decide)]
            exact alGet_alInsert_same _ _ _
          · rw [hget "height" (by decide)]
            exact alGet_alInsert_same _ _ _
      · have hget := addTail_ok_get (afterTail_send h)
        exact ⟨fun k hk _ _ => hget k hk,
          Or.inl ⟨(hget "width" (by decide)).trans hw, (hget "height" (by decide)).trans hh⟩⟩
    · have hget := addTail_ok_get (afterTail_send h)
      exact ⟨fun k hk _ _ => hget k hk,
        Or.inl ⟨(hget "width" (by decide)).trans hw, (hget "height" (by decide)).trans hh⟩⟩
  · have hget := addTail_ok_get (afterTail_send h)
    exact ⟨fun k hk _ _ => hget k hk,
      Or.inl ⟨(hget "width" (by decide)).trans hw, (hget "height" (by decide)).trans hh⟩⟩

theorem afterImage_send {params pl : AList PyVal} {ar : String} {p : AList PyVal}
    (h : afterImage params pl ar = .send p) :
    ∃ pl2, afterDims params pl2 ar = .send p ∧
      ∀ k, k ≠ "image_prompt" → alGet pl2 k = alGet pl k := by
  unfold afterImage at h
  split at h
  · exact ⟨pl, h, fun k _ => rfl⟩
  · split at h
    · rename_i v hg hval
      exact ⟨alInsert pl "image_prompt" v, h,
        fun k hk => alGet_alInsert_ne _ _ _ _ (fun he => hk he.symm)⟩
    · exact BuildOutcome.noConfusion h

theorem afterImage_reply {params pl : AList PyVal} {ar s : String}
    (h : afterImage params pl ar = .reply s) : s = imagePromptError := by
  unfold afterImage at h
  split at h
  · exact absurd h (afterDims_ne_reply _ _ _ _)
  · split at h
    · exact absurd h (afterDims_ne_reply _ _ _ _)
    · injection h with h'
      exact h'.symm

theorem buildRequest_reply {msg s} (h : buildRequest msg = .reply s) :
    s = "Error: Prompt is required" ∨ s = imagePromptError := by
  simp only [buildRequest] at h
  split at h
  · exact BuildOutcome.noConfusion h
  · split at h
    · injection h with h'
      exact Or.inl h'.symm
    · split at h
      · exact BuildOutcome.noConfusion h
      · exact Or.inr (afterImage_reply h)

theorem buildRequest_send_image_valid {msg : String} {q : AList PyVal}
    (h : buildRequest msg = .send q) :
    ∀ v, alGet (parse_command_params msg) "image_prompt" = some v →
      validate_image_url_py v = true := by
  intro v hv
  simp only [buildRequest] at h
  split at h
  · exact BuildOutcome.noConfusion h
  · split at h
    · exact BuildOutcome.noConfusion h
    · split at h
      · exact BuildOutcome.noConfusion h
      · unfold afterImage at h
        split at h
        · rename_i hg
          rw [hg] at hv
          exact Option.noConfusion hv
        · rename_i v' hg
          split at h
          · rename_i hval
            rw [hg] at hv
            injection hv with hv'
            rw [← hv']
            exact hval
          · exact BuildOutcome.noConfusion h

theorem pyStripVal_ok {v : PyVal} {s : String} (h : pyStripVal v = .ok s) : pyStrip s = s := by
  cases v with
  | str s0 =>
    simp only [pyStripVal] at h
    injection h with h'
    rw [← h']
    exact pyStrip_idem s0
  | bool b => simp [pyStripVal] at h
  | int n => simp [pyStripVal] at h

/-! Membership lemmas for fuzzy matching. -/

theorem candidateMap_values (cands : List String) :
    ∀ k v, alGet (candidateMap cands) k = some v → v ∈ cands := by
  unfold candidateMap
  suffices hgen : ∀ (cs : List String) (m0 : AList String), (∀ x ∈ cs, x ∈ cands) →
      (∀ k v, alGet m0 k = some v → v ∈ cands) →
      ∀ k v, alGet (cs.foldl (fun m c => alInsert m (pyLower c) c) m0) k = some v → v ∈ cands by
    exact hgen cands [] (fun x hx => hx) (by intro k v hkv; simp [alGet] at hkv)
  intro cs
  induction cs with
  | nil => intro m0 _ hm k v h; exact hm k v h
  | cons c cs ih =>
    intro m0 hcs hm k v h
    simp only [List.foldl_cons] at h
    refine ih (alInsert m0 (pyLower c) c)
      (fun x hx => hcs x (List.mem_cons_of_mem _ hx)) ?_ k v h
    intro k' v' h'
    rw [alGet_alInsert] at h'
    split at h'
    · injection h' with h''
      rw [← h'']
      exact hcs c (List.mem_cons_self c cs)
    · exact hm k' v' h'

theorem fuzzy_match_mem (t : String) (cands : List String) (d : String) (hd : d ∈ cands) :
    fuzzy_match t cands d ∈ cands := by
  unfold fuzzy_match
  split
  · exact hd
  · split
    · assumption
    · split
      · rename_i m rest hmatch
        cases hg : alGet (candidateMap cands) m with
        | none => exact hd
        | some v => exact candidateMap_values cands m v hg
      · exact hd

theorem fuzzy_match_py_ok_mem {v : PyVal} {cands : List String} {d a : String}
    (hd : d ∈ cands) (h : fuzzy_match_py v cands d = .ok a) : a ∈ cands := by
  cases v with
  | str s =>
    simp only [fuzzy_match_py] at h
    injection h with h'
    rw [← h']
    exact fuzzy_match_mem s cands d hd
  | bool b =>
    cases b with
    | false =>
      simp only [fuzzy_match_py, Bool.false_eq_true, if_neg] at h
      injection h with h'
      rw [← h']
      exact hd
    | true => simp [fuzzy_match_py] at h
  | int n =>
    by_cases hn : n = 0
    · simp only [fuzzy_match_py, if_pos hn] at h
      injection h with h'
      rw [← h']
      exact hd
    · simp [fuzzy_match_py, hn] at h

/-- C7: an empty (post-strip) prompt makes pipe return exactly
"Error: Prompt is required", and a present image_prompt value that
fails URL validation (non-empty scheme and host, lowercased path ending
in an allowed image extension) makes pipe return an error string
beginning "Error"; in both cases buildRequest never reaches `.send`, so
the remote service is never invoked. -/
theorem C7_validation_short_circuits :
    ∀ (msg : String) (remote : AList PyVal → Except String String),
      ((∃ pr, alGet (parse_command_params msg) "prompt" = some (PyVal.str pr) ∧
          pyStrip pr = "") →
        pipe remote msg = "Error: Prompt is required" ∧
          ∀ q, buildRequest msg ≠ .send q) ∧
      (∀ v, alGet (parse_command_params msg) "image_prompt" = some v →
        validate_image_url_py v = false →
        (∃ t, pipe remote msg = "Error" ++ t) ∧ ∀ q, buildRequest msg ≠ .send q) := by
  intro msg remote
  constructor
  · rintro ⟨pr, hpr, hstrip⟩
    have hbr : buildRequest msg = .reply "Error: Prompt is required" := by
      simp only [buildRequest]
      have h1 : alGetD (parse_command_params msg) "prompt" (PyVal.str "") = PyVal.str pr := by
        unfold alGetD
        rw [hpr]
        rfl
      rw [h1]
      simp only [pyStripVal]
      rw [if_pos hstrip]
    refine ⟨by unfold pipe; rw [hbr], ?_⟩
    intro q hq
    rw [hbr] at hq
    exact BuildOutcome.noConfusion hq
  · intro v hv hval
    have hnosend : ∀ q, buildRequest msg ≠ .send q := by
      intro q hq
      have hvalid := buildRequest_send_image_valid hq v hv
      rw [hval] at hvalid
      exact Bool.noConfusion hvalid
    refine ⟨?_, hnosend⟩
    have hsplit : ∀ m : String,
        ("Error" : String) ++ (" generating image: " ++ m) = "Error generating image: " ++ m := by
      intro m
      rw [← String.append_assoc]
      rfl
    cases hbr : buildRequest msg with
    | reply s =>
      rcases buildRequest_reply hbr with h | h
      · subst h
        exact ⟨": Prompt is required", by unfold pipe; rw [hbr]; rfl⟩
      · subst h
        exact ⟨": image_prompt must be a valid URL pointing to a jpeg, png, gif, or webp image",
          by unfold pipe; rw [hbr]; rfl⟩
    | exc m =>
      refine ⟨" generating image: " ++ m, ?_⟩
      unfold pipe
      rw [hbr, hsplit m]
    | send q => exact (hnosend q hbr).elim

/-- C7 witness: a blank message yields exactly the required-prompt
error, and an invalid image_prompt yields an error beginning "Error";
neither run builds a payload. -/
theorem C7_validation_short_circuits_witness :
    (pipe (fun _ => .ok "x") "   " = "Error: Prompt is required" ∧
      buildRequest "   " ≠ .send []) ∧
    ((∃ t, pipe (fun _ => .ok "x") "a cat --image_prompt nota.url" = "Error" ++ t) ∧
      buildRequest "a cat --image_prompt nota.url" ≠ .send []) :=
  ⟨⟨((C7_validation_short_circuits "   " (fun _ => .ok "x")).1 ⟨"", rfl, rfl⟩).1,
    ((C7_validation_short_circuits "   " (fun _ => .ok "x")).1 ⟨"", rfl, rfl⟩).2 []⟩,
   ⟨((C7_validation_short_circuits "a cat --image_prompt nota.url" (fun _ => .ok "x")).2
        (PyVal.str "nota.url") rfl rfl).1,
    ((C7_validation_short_circuits "a cat --image_prompt nota.url" (fun _ => .ok "x")).2
        (PyVal.str "nota.url") rfl rfl).2 []⟩⟩

/-- C8: every payload actually sent to the remote service contains a
non-empty trimmed prompt and an aspect_ratio drawn from the fixed
candidate set; width and height appear only when the aspect ratio is
"custom", and either both appear or neither does. -/
theorem C8_payload_invariants :
    ∀ (msg : String) (p : AList PyVal), buildRequest msg = .send p →
      (∃ pr, alGet p "prompt" = some (PyVal.str pr) ∧ pr ≠ "" ∧ pyStrip pr = pr) ∧
      (∃ a, alGet p "aspect_ratio" = some (PyVal.str a) ∧ a ∈ AVAILABLE_ASPECT_RATIOS ∧
        (a ≠ "custom" → alGet p "width" = none ∧ alGet p "height" = none)) ∧
      (alGet p "width" = none ↔ alGet p "height" = none) := by
  intro msg p h
  simp only [buildRequest] at h
  split at h
  · exact BuildOutcome.noConfusion h
  · rename_i prompt0 hstripOk
    split at h
    · exact BuildOutcome.noConfusion h
    · rename_i hne
      split at h
      · exact BuildOutcome.noConfusion h
      · rename_i ar hfuzzy
        obtain ⟨pl2, hdims, hpl2⟩ := afterImage_send h
        have hW2 : alGet pl2 "width" = none := by
          rw [hpl2 "width" (by decide)]; simp [alGet]
        have hH2 : alGet pl2 "height" = none := by
          rw [hpl2 "height" (by decide)]; simp [alGet]
        obtain ⟨hpres, hdisj⟩ := afterDims_send hdims hW2 hH2
        have hprompt : alGet p "prompt" = some (PyVal.str prompt0) := by
          rw [hpres "prompt" (by decide) (by decide) (by decide),
              hpl2 "prompt" (by decide)]
          simp [alGet]
        have haspect : alGet p "aspect_ratio" = some (PyVal.str ar) := by
          rw [hpres "aspect_ratio" (by decide) (by decide) (by decide),
              hpl2 "aspect_ratio" (by decide)]
          simp [alGet]
        refine ⟨⟨prompt0, hprompt, hne, pyStripVal_ok hstripOk⟩,
          ⟨ar, haspect, fuzzy_match_py_ok_mem (by decide) hfuzzy, ?_⟩, ?_⟩
        · intro hnc
          rcases hdisj with ⟨hwn, hhn⟩ | ⟨hc, _⟩
          · exact ⟨hwn, hhn⟩
          · exact absurd hc hnc
        · rcases hdisj with ⟨hwn, hhn⟩ | ⟨_, wv, hv, hws, hhs⟩
          · rw [hwn, hhn]
          · rw [hws, hhs]
            simp

/-! Lemmas locating the first marker of a message of the shape
`text ++ " --" ++ name ++ " " ++ value`. -/

theorem firstDD_append_marker {t : List Char} (h : firstDDIdx t = none) (r : List Char) :
    firstDDIdx (t ++ ' ' :: '-' :: '-' :: r) = some (t.length + 1) := by
  induction t with
  | nil =>
    show firstDDIdx (' ' :: '-' :: '-' :: r) = some 1
    rw [firstDDIdx, if_neg (by simp), firstDDIdx, if_pos ⟨rfl, rfl⟩]
    rfl
  | cons c t' ih =>
    rw [firstDDIdx] at h
    split at h
    · exact Option.noConfusion h
    · rename_i hcond
      have ht' : firstDDIdx t' = none := by
        cases he : firstDDIdx t' with
        | none => rfl
        | some j => rw [he] at h; exact Option.noConfusion h
      have hcond2 : ¬(c = '-' ∧ (t' ++ ' ' :: '-' :: '-' :: r).head? = some '-') := by
        cases t' with
        | nil => simp
        | cons d t'' =>
          rw [List.cons_append, List.head?_cons]
          rw [List.head?_cons] at hcond
          exact hcond
      rw [List.cons_append, firstDDIdx, if_neg hcond2, ih ht']
      rfl

theorem firstDD_append_none {a : List Char} (b : List Char) (ha : firstDDIdx a = none)
    (hb : firstDDIdx b = none) : firstDDIdx (a ++ ' ' :: b) = none := by
  induction a with
  | nil =>
    show firstDDIdx (' ' :: b) = none
    rw [firstDDIdx, if_neg (by simp), hb]
    rfl
  | cons c a' ih =>
    rw [firstDDIdx] at ha
    split at ha
    · exact Option.noConfusion ha
    · rename_i hcond
      have ha' : firstDDIdx a' = none := by
        cases he : firstDDIdx a' with
        | none => rfl
        | some j => rw [he] at ha; exact Option.noConfusion ha
      have hcond2 : ¬(c = '-' ∧ (a' ++ ' ' :: b).head? = some '-') := by
        cases a' with
        | nil => simp
        | cons d a'' =>
          rw [List.cons_append, List.head?_cons]
          rw [List.head?_cons] at hcond
          exact hcond
      rw [List.cons_append, firstDDIdx, if_neg hcond2, ih ha']
      rfl

theorem splitOnDD_of_noDD {l : List Char} (h : firstDDIdx l = none) : splitOnDD l = [l] := by
  induction l with
  | nil => rfl
  | cons c l' ih =>
    rw [firstDDIdx] at h
    split at h
    · exact Option.noConfusion h
    · rename_i hcond
      have hl' : firstDDIdx l' = none := by
        cases he : firstDDIdx l' with
        | none => rfl
        | some j => rw [he] at h; exact Option.noConfusion h
      cases l' with
      | nil => rfl
      | cons d l'' =>
        rw [List.head?_cons] at hcond
        have hcd : ¬(c = '-' ∧ d = '-') := by
          intro hcd
          exact hcond ⟨hcd.1, congrArg some hcd.2⟩
        rw [splitOnDD, if_neg hcd, ih hl']

theorem take_len_succ_append (t : List Char) (c : Char) (r : List Char) :
    (t ++ c :: r).take (t.length + 1) = t ++ [c] := by
  induction t with
  | nil => rfl
  | cons a t' ih =>
    simp only [List.cons_append, List.length_cons, List.take_succ_cons, ih]

theorem drop_len_succ_append (t : List Char) (c : Char) (r : List Char) :
    (t ++ c :: r).drop (t.length + 1) = r := by
  induction t with
  | nil => rfl
  | cons a t' ih =>
    simp only [List.cons_append, List.length_cons, List.drop_succ_cons]
    exact ih

theorem getLast?_append_right (a : List Char) {b : List Char} (hb : b ≠ []) :
    (a ++ b).getLast? = b.getLast? := by
  rw [← List.head?_reverse, List.reverse_append, ← List.head?_reverse b]
  cases hbr : b.reverse with
  | nil => exact absurd (List.reverse_eq_nil_iff.mp hbr) hb
  | cons x xs => rfl

theorem takeWhile_nonspace_append (name v : List Char)
    (h : ∀ c ∈ name, isPySpace c = false) :
    (name ++ ' ' :: v).takeWhile (fun c => !isPySpace c) = name := by
  induction name with
  | nil =>
    show (' ' :: v).takeWhile (fun c => !isPySpace c) = []
    rw [List.takeWhile_cons, if_neg (by decide)]
  | cons c n' ih =>
    have hc := h c (List.mem_cons_self c n')
    rw [List.cons_append, List.takeWhile_cons, if_pos (by rw [hc]; rfl),
      ih (fun x hx => h x (List.mem_cons_of_mem _ hx))]

theorem dropWhile_eq_self_of_head {l : List Char}
    (h : ∀ c, l.head? = some c → isPySpace c = false) :
    l.dropWhile isPySpace = l := by
  cases l with
  | nil => rfl
  | cons c t =>
    rw [List.dropWhile_cons, if_neg (by rw [h c rfl]; exact Bool.false_ne_true)]

theorem pySplitWs1_concat (name v : List Char)
    (hnws : ∀ c ∈ name, isPySpace c = false)
    (hvh : ∀ c, v.head? = some c → isPySpace c = false) (hv : v ≠ []) :
    pySplitWs1 (name ++ ' ' :: v) = (name, some v) := by
  have hafter : ((name ++ ' ' :: v).drop
      ((name ++ ' ' :: v).takeWhile (fun c => !isPySpace c)).length).dropWhile isPySpace = v := by
    rw [takeWhile_nonspace_append name v hnws, List.drop_left, List.dropWhile_cons,
        if_pos (show isPySpace ' ' = true by decide), dropWhile_eq_self_of_head hvh]
  have hie : v.isEmpty = false := by
    cases v with
    | nil => exact absurd rfl hv
    | cons c t => rfl
  simp only [pySplitWs1]
  rw [hafter, takeWhile_nonspace_append name v hnws, hie]
  rfl

theorem parse_core_marker {m : List Char} {i : Nat} (h : firstDDIdx m = some i) :
    parse_command_params_core m =
      parseTokens ((splitOnDD (stripChars (m.drop i))).drop 1)
        [("prompt", PyVal.str (String.mk (stripChars (m.take i))))] := by
  unfold parse_command_params_core
  rw [h]

theorem parseTokens_one (tok : List Char) (params : AList PyVal) (nm vv : List Char)
    (h1 : stripChars tok = tok) (h2 : tok ≠ [])
    (h3 : pySplitWs1 tok = (nm, some vv)) :
    parseTokens [tok] params =
      .ok (alInsert params (String.mk nm) (convert_value (String.mk vv))) := by
  have hie : tok.isEmpty = false := by
    cases tok with
    | nil => exact absurd rfl h2
    | cons c t => rfl
  simp only [parseTokens]
  rw [h1, hie]
  simp only [Bool.false_eq_true, if_false]
  rw [h3]

theorem parseTokens_cons {tok stok : List Char} (rest : List (List Char)) (params : AList PyVal)
    (nm vv : List Char) (h1 : stripChars tok = stok) (h2 : stok ≠ [])
    (h3 : pySplitWs1 stok = (nm, some vv)) :
    parseTokens (tok :: rest) params =
      parseTokens rest (alInsert params (String.mk nm) (convert_value (String.mk vv))) := by
  have hie : stok.isEmpty = false := by
    cases stok with
    | nil => exact absurd rfl h2
    | cons c t => rfl
  simp only [parseTokens]
  rw [h1, hie]
  simp only [Bool.false_eq_true, if_false]
  rw [h3]

theorem stripChars_append_space {Y : List Char}
    (hh : ∀ c, Y.head? = some c → isPySpace c = false)
    (hl : ∀ c, Y.getLast? = some c → isPySpace c = false) :
    stripChars (Y ++ [' ']) = Y := by
  cases Y with
  | nil => rfl
  | cons a Y' =>
    unfold stripChars
    have h1 : ((a :: Y') ++ [' ']).dropWhile isPySpace = (a :: Y') ++ [' '] := by
      rw [List.cons_append]
      exact dropWhile_eq_self_of_head (fun c hc => by
        rw [List.head?_cons] at hc
        injection hc with hc'
        exact hc' ▸ hh a rfl)
    rw [h1]
    have h2 : ((a :: Y') ++ [' ']).reverse = ' ' :: (a :: Y').reverse := by
      rw [List.reverse_append]
      rfl
    rw [h2, List.dropWhile_cons, if_pos (show isPySpace ' ' = true by decide)]
    have h3 : (a :: Y').reverse.dropWhile isPySpace = (a :: Y').reverse := by
      apply dropWhile_eq_self_of_head
      intro c hc
      rw [List.head?_reverse] at hc
      exact hl c hc
    rw [h3, List.reverse_reverse]

theorem splitOnDD_append_marker {A : List Char} (h : firstDDIdx A = none) (r : List Char) :
    splitOnDD (A ++ ' ' :: '-' :: '-' :: r) = (A ++ [' ']) :: splitOnDD r := by
  induction A with
  | nil =>
    show splitOnDD (' ' :: '-' :: '-' :: r) = [' '] :: splitOnDD r
    rw [splitOnDD, if_neg (by simp)]
    rw [show splitOnDD ('-' :: '-' :: r) = [] :: splitOnDD r from by
      rw [splitOnDD, if_pos ⟨rfl, rfl⟩]]
  | cons c A' ih =>
    rw [firstDDIdx] at h
    split at h
    · exact Option.noConfusion h
    · rename_i hcond
      have hA' : firstDDIdx A' = none := by
        cases he : firstDDIdx A' with
        | none => rfl
        | some j => rw [he] at h; exact Option.noConfusion h
      cases A' with
      | nil =>
        show splitOnDD (c :: ' ' :: '-' :: '-' :: r) = ([c] ++ [' ']) :: splitOnDD r
        rw [splitOnDD, if_neg (by simp)]
        rw [show splitOnDD (' ' :: '-' :: '-' :: r) = [' '] :: splitOnDD r from ih rfl]
        rfl
      | cons d A'' =>
        rw [List.head?_cons] at hcond
        have hcd : ¬(c = '-' ∧ d = '-') := fun hcd => hcond ⟨hcd.1, congrArg some hcd.2⟩
        show splitOnDD (c :: d :: (A'' ++ ' ' :: '-' :: '-' :: r)) =
          ((c :: d :: A'') ++ [' ']) :: splitOnDD r
        rw [splitOnDD, if_neg hcd]
        have ih' : splitOnDD (d :: (A'' ++ ' ' :: '-' :: '-' :: r)) =
            ((d :: A'') ++ [' ']) :: splitOnDD r := ih hA'
        rw [ih']
        rfl

theorem flags_getLast :
    ∀ (flags : List (List Char × List Char)),
      (∀ p ∈ flags, p.2 ≠ [] ∧ stripChars p.2 = p.2) →
      ∀ (Y : List Char), Y ≠ [] → (∀ c, Y.getLast? = some c → isPySpace c = false) →
      ∀ c, (Y ++ flagsChars flags).getLast? = some c → isPySpace c = false := by
  intro flags
  induction flags with
  | nil =>
    intro _ Y hY hYl c hc
    rw [show flagsChars [] = [] from rfl, List.append_nil] at hc
    exact hYl c hc
  | cons q fs ih =>
    intro hgood Y hY hYl c hc
    obtain ⟨nm2, vl2⟩ := q
    have hq := hgood (nm2, vl2) (List.mem_cons_self _ _)
    have hfs : ∀ p ∈ fs, p.2 ≠ [] ∧ stripChars p.2 = p.2 :=
      fun p hp => hgood p (List.mem_cons_of_mem _ hp)
    have hshape : Y ++ flagsChars ((nm2, vl2) :: fs) =
        (Y ++ (' ' :: '-' :: '-' :: (nm2 ++ [' ']))) ++ (vl2 ++ flagsChars fs) := by
      show Y ++ (' ' :: '-' :: '-' :: (nm2 ++ ' ' :: (vl2 ++ flagsChars fs))) = _
      simp
    rw [hshape] at hc
    have hvne : vl2 ++ flagsChars fs ≠ [] := by
      intro he
      exact hq.1 (List.append_eq_nil.mp he).1
    rw [getLast?_append_right _ hvne] at hc
    exact ih hfs vl2 hq.1
      (fun c' hc' => stripChars_getLast vl2 c' (by rw [hq.2]; exact hc')) c hc

theorem parse_flags :
    ∀ (flags : List (List Char × List Char)) (nm vl : List Char) (params : AList PyVal),
      nm ≠ [] → (∀ c ∈ nm, isPySpace c = false) → firstDDIdx nm = none →
      vl ≠ [] → stripChars vl = vl → firstDDIdx vl = none →
      (∀ p ∈ flags, p.1 ≠ [] ∧ (∀ c ∈ p.1, isPySpace c = false) ∧ firstDDIdx p.1 = none ∧
        p.2 ≠ [] ∧ stripChars p.2 = p.2 ∧ firstDDIdx p.2 = none) →
      parseTokens (splitOnDD (nm ++ ' ' :: (vl ++ flagsChars flags))) params =
        .ok (flags.foldl
          (fun d p => alInsert d (String.mk p.1) (convert_value (String.mk p.2)))
          (alInsert params (String.mk nm) (convert_value (String.mk vl)))) := by
  intro flags
  induction flags with
  | nil =>
    intro nm vl params hn hnws hnDD hv hvs hvDD _
    have hvhead : ∀ c, vl.head? = some c → isPySpace c = false :=
      fun c hc => stripChars_head vl c (by rw [hvs]; exact hc)
    have hvlast : ∀ c, vl.getLast? = some c → isPySpace c = false :=
      fun c hc => stripChars_getLast vl c (by rw [hvs]; exact hc)
    show parseTokens (splitOnDD (nm ++ ' ' :: (vl ++ []))) params = _
    rw [List.append_nil]
    rw [splitOnDD_of_noDD (firstDD_append_none vl hnDD hvDD)]
    have htokstrip : stripChars (nm ++ ' ' :: vl) = nm ++ ' ' :: vl := by
      apply stripChars_eq_self
      · intro c hc
        cases nm with
        | nil => exact absurd rfl hn
        | cons a n' =>
          rw [List.cons_append, List.head?_cons] at hc
          injection hc with hc'
          exact hc' ▸ hnws a (List.mem_cons_self a n')
      · intro c hc
        have hX : nm ++ ' ' :: vl = (nm ++ [' ']) ++ vl := by simp
        rw [hX, getLast?_append_right _ hv] at hc
        exact hvlast c hc
    have htokne : nm ++ ' ' :: vl ≠ [] := by
      cases nm with
      | nil => exact absurd rfl hn
      | cons a n' => simp
    rw [parseTokens_one (nm ++ ' ' :: vl) params nm vl htokstrip htokne
        (pySplitWs1_concat nm vl hnws hvhead hv)]
    rfl
  | cons q fs ih =>
    intro nm vl params hn hnws hnDD hv hvs hvDD hflags
    obtain ⟨nm2, vl2⟩ := q
    obtain ⟨hqn, hqnws, hqnDD, hqv, hqvs, hqvDD⟩ := hflags (nm2, vl2) (List.mem_cons_self _ _)
    have hfs := fun p hp => hflags p (List.mem_cons_of_mem _ hp)
    have hvhead : ∀ c, vl.head? = some c → isPySpace c = false :=
      fun c hc => stripChars_head vl c (by rw [hvs]; exact hc)
    have hvlast : ∀ c, vl.getLast? = some c → isPySpace c = false :=
      fun c hc => stripChars_getLast vl c (by rw [hvs]; exact hc)
    have hshape : nm ++ ' ' :: (vl ++ flagsChars ((nm2, vl2) :: fs)) =
        (nm ++ ' ' :: vl) ++ ' ' :: '-' :: '-' :: (nm2 ++ ' ' :: (vl2 ++ flagsChars fs)) := by
      show nm ++ ' ' :: (vl ++ (' ' :: '-' :: '-' :: (nm2 ++ ' ' :: (vl2 ++ flagsChars fs)))) = _
      simp
    rw [hshape]
    rw [splitOnDD_append_marker (firstDD_append_none vl hnDD hvDD)
        (nm2 ++ ' ' :: (vl2 ++ flagsChars fs))]
    have hstrip1 : stripChars ((nm ++ ' ' :: vl) ++ [' ']) = nm ++ ' ' :: vl := by
      apply stripChars_append_space
      · intro c hc
        cases nm with
        | nil => exact absurd rfl hn
        | cons a n' =>
          rw [List.cons_append, List.head?_cons] at hc
          injection hc with hc'
          exact hc' ▸ hnws a (List.mem_cons_self a n')
      · intro c hc
        have hX : nm ++ ' ' :: vl = (nm ++ [' ']) ++ vl := by simp
        rw [hX, getLast?_append_right _ hv] at hc
        exact hvlast c hc
    have htokne : nm ++ ' ' :: vl ≠ [] := by
      cases nm with
      | nil => exact absurd rfl hn
      | cons a n' => simp
    rw [parseTokens_cons _ params nm vl hstrip1 htokne
        (pySplitWs1_concat nm vl hnws hvhead hv)]
    rw [ih nm2 vl2 _ hqn hqnws hqnDD hqv hqvs hqvDD hfs]
    rfl

theorem find?_append_some {α : Type} (p : α → Bool) {a : List α} {x : α} (b : List α)
    (h : a.find? p = some x) : (a ++ b).find? p = some x := by
  induction a with
  | nil => simp [List.find?] at h
  | cons y ys ih =>
    rw [List.cons_append]
    cases hy : p y with
    | true =>
      rw [List.find?_cons_of_pos _ hy] at h ⊢
      exact h
    | false =>
      rw [List.find?_cons_of_neg _ (by simp [hy])] at h ⊢
      exact ih h

theorem find?_append_none {α : Type} (p : α → Bool) {a : List α} (b : List α)
    (h : a.find? p = none) : (a ++ b).find? p = b.find? p := by
  induction a with
  | nil => rfl
  | cons y ys ih =>
    rw [List.cons_append]
    cases hy : p y with
    | true => rw [List.find?_cons_of_pos _ hy] at h; exact Option.noConfusion h
    | false =>
      rw [List.find?_cons_of_neg _ (by simp [hy])] at h ⊢
      exact ih h

theorem alGet_foldl_insert :
    ∀ (flags : List (List Char × List Char)) (d : AList PyVal) (k : String),
      alGet (flags.foldl
          (fun d' p => alInsert d' (String.mk p.1) (convert_value (String.mk p.2))) d) k =
        (flags.reverse.find? (fun p => String.mk p.1 == k)).elim (alGet d k)
          (fun p => some (convert_value (String.mk p.2))) := by
  intro flags
  induction flags with
  | nil => intro d k; rfl
  | cons p fs ih =>
    intro d k
    obtain ⟨nm2, vl2⟩ := p
    simp only [List.foldl_cons, List.reverse_cons]
    rw [ih]
    cases hf : fs.reverse.find? (fun q => String.mk q.1 == k) with
    | some q =>
      rw [find?_append_some _ [(nm2, vl2)] hf]
      rfl
    | none =>
      rw [find?_append_none _ [(nm2, vl2)] hf]
      cases hx : (String.mk nm2 == k) with
      | true =>
        have hkeq : String.mk nm2 = k := eq_of_beq hx
        simp [List.find?, hx, alGet_alInsert, hkeq]
      | false =>
        have hne2 : ¬ String.mk nm2 = k := by
          intro he
          rw [he, beq_self_eq_true] at hx
          exact Bool.noConfusion hx
        simp [List.find?, hx, alGet_alInsert, hne2]

/-- C8 witness: the payload built for "a cat" satisfies all the
invariants. -/
theorem C8_payload_invariants_witness :
    (∃ pr, alGet [("prompt", PyVal.str "a cat"), ("aspect_ratio", PyVal.str "1:1")] "prompt" =
        some (PyVal.str pr) ∧ pr ≠ "" ∧ pyStrip pr = pr) ∧
    (∃ a, alGet [("prompt", PyVal.str "a cat"), ("aspect_ratio", PyVal.str "1:1")]
        "aspect_ratio" = some (PyVal.str a) ∧ a ∈ AVAILABLE_ASPECT_RATIOS ∧
        (a ≠ "custom" →
          alGet [("prompt", PyVal.str "a cat"),
            ("aspect_ratio", PyVal.str "1:1")] "width" = none ∧
          alGet [("prompt", PyVal.str "a cat"),
            ("aspect_ratio", PyVal.str "1:1")] "height" = none)) ∧
    (alGet [("prompt", PyVal.str "a cat"), ("aspect_ratio", PyVal.str "1:1")] "width" = none ↔
      alGet [("prompt", PyVal.str "a cat"), ("aspect_ratio", PyVal.str "1:1")] "height" = none) :=
  C8_payload_invariants "a cat"
    [("prompt", PyVal.str "a cat"), ("aspect_ratio", PyVal.str "1:1")] rfl

/-- C10 counterexample: for the message 'a cat --prompt 5' the token "5"
is coerced to the integer 5, so the parsed prompt is an integer, and the
orchestrator raises at `params.get("prompt", "").strip()` (caught and
wrapped) instead of sending a request whose prompt field is "5": the
claim fails for values that do not stay strings under type coercion. -/
theorem C10_counterexample :
    parse_command_params "a cat --prompt 5" = [("prompt", PyVal.int 5)] ∧
    pipe (fun _ => .ok "https://img") "a cat --prompt 5" =
      "Error generating image: AttributeError: int object has no attribute strip" :=
  ⟨rfl, rfl⟩

/-- C10 (amended): a flag named prompt overwrites the free-text prompt
in place whenever its raw value stays a string under type coercion: for
every message of the shape `text --name value` (text marker-free, name a
non-empty whitespace-free marker-free word, value non-empty, stripped
and marker-free) the parse result is the initial prompt entry updated
with `name := convert_value value`; when the flag is named prompt and
the value coerces to a string, the parsed prompt and the prompt field of
the outgoing payload are exactly that value; and, in general, for every
message `text --name value --n1 v1 ... --nk vk` with well-formed flag
units, the parse result is the left fold of dict assignments over the
flag units in message order (third conjunct), so the value stored under
any flag key is the coercion of that key's textually last occurrence:
the fourth conjunct states the lookup of any key k in the parse result
as the last (first-in-reverse) flag unit named k, falling back to the
initial prompt entry. -/
theorem C10_prompt_flag_overrides :
    ∀ (text name v : List Char),
      firstDDIdx text = none →
      name ≠ [] → (∀ c ∈ name, isPySpace c = false) → firstDDIdx name = none →
      v ≠ [] → stripChars v = v → firstDDIdx v = none →
      (parseChars (text ++ ' ' :: '-' :: '-' :: (name ++ ' ' :: v)) =
        alInsert [("prompt", PyVal.str (String.mk (stripChars (text ++ [' ']))))]
          (String.mk name) (convert_value (String.mk v))) ∧
      (∀ s : String, s.data = text ++ ' ' :: '-' :: '-' :: (name ++ ' ' :: v) →
        name = "prompt".data →
        convert_value (String.mk v) = PyVal.str (String.mk v) →
        parse_command_params s = [("prompt", PyVal.str (String.mk v))] ∧
        buildRequest s = .send
          [("prompt", PyVal.str (String.mk v)), ("aspect_ratio", PyVal.str "1:1")]) ∧
      (∀ (flags : List (List Char × List Char)),
        (∀ p ∈ flags, p.1 ≠ [] ∧ (∀ c ∈ p.1, isPySpace c = false) ∧ firstDDIdx p.1 = none ∧
          p.2 ≠ [] ∧ stripChars p.2 = p.2 ∧ firstDDIdx p.2 = none) →
        parseChars (text ++ flagsChars ((name, v) :: flags)) =
          ((name, v) :: flags).foldl
            (fun d p => alInsert d (String.mk p.1) (convert_value (String.mk p.2)))
            [("prompt", PyVal.str (String.mk (stripChars (text ++ [' ']))))]) ∧
      (∀ (flags : List (List Char × List Char)),
        (∀ p ∈ flags, p.1 ≠ [] ∧ (∀ c ∈ p.1, isPySpace c = false) ∧ firstDDIdx p.1 = none ∧
          p.2 ≠ [] ∧ stripChars p.2 = p.2 ∧ firstDDIdx p.2 = none) →
        ∀ k : String,
          alGet (parseChars (text ++ flagsChars ((name, v) :: flags))) k =
            (((name, v) :: flags).reverse.find? (fun p => String.mk p.1 == k)).elim
              (alGet [("prompt", PyVal.str (String.mk (stripChars (text ++ [' ']))))] k)
              (fun p => some (convert_value (String.mk p.2)))) := by
  intro text name v htext hname hnws hnameDD hv hvstrip hvDD
  have hvhead : ∀ c, v.head? = some c → isPySpace c = false := by
    intro c hc
    exact stripChars_head v c (by rw [hvstrip]; exact hc)
  have hvlast : ∀ c, v.getLast? = some c → isPySpace c = false := by
    intro c hc
    exact stripChars_getLast v c (by rw [hvstrip]; exact hc)
  have hXlast : (name ++ ' ' :: v).getLast? = v.getLast? := by
    have hX : name ++ ' ' :: v = (name ++ [' ']) ++ v := by simp
    rw [hX, getLast?_append_right _ hv]
  have htokstrip : stripChars (name ++ ' ' :: v) = name ++ ' ' :: v := by
    apply stripChars_eq_self
    · intro c hc
      cases name with
      | nil => exact absurd rfl hname
      | cons a n' =>
        rw [List.cons_append, List.head?_cons] at hc
        injection hc with hc'
        rw [← hc']
        exact hnws a (List.mem_cons_self a n')
    · intro c hc
      rw [hXlast] at hc
      exact hvlast c hc
  have htokne : name ++ ' ' :: v ≠ [] := by
    cases name with
    | nil => exact absurd rfl hname
    | cons a n' => simp
  have hcore : parse_command_params_core (text ++ ' ' :: '-' :: '-' :: (name ++ ' ' :: v)) =
      .ok (alInsert [("prompt", PyVal.str (String.mk (stripChars (text ++ [' ']))))]
        (String.mk name) (convert_value (String.mk v))) := by
    rw [parse_core_marker (firstDD_append_marker htext (name ++ ' ' :: v))]
    rw [drop_len_succ_append, take_len_succ_append]
    have hparamstrip : stripChars ('-' :: '-' :: (name ++ ' ' :: v)) =
        '-' :: '-' :: (name ++ ' ' :: v) := by
      apply stripChars_eq_self
      · intro c hc
        rw [List.head?_cons] at hc
        injection hc with hc'
        rw [← hc']
        rfl
      · intro c hc
        have h2 : ('-' :: '-' :: (name ++ ' ' :: v)).getLast? = v.getLast? := by
          have h3 : '-' :: '-' :: (name ++ ' ' :: v) = ('-' :: '-' :: name ++ [' ']) ++ v := by
            simp
          rw [h3, getLast?_append_right _ hv]
        rw [h2] at hc
        exact hvlast c hc
    rw [hparamstrip]
    have hdd : splitOnDD ('-' :: '-' :: (name ++ ' ' :: v)) =
        [] :: splitOnDD (name ++ ' ' :: v) := by
      rw [splitOnDD, if_pos ⟨rfl, rfl⟩]
    rw [hdd, splitOnDD_of_noDD (firstDD_append_none v hnameDD hvDD)]
    show parseTokens [name ++ ' ' :: v] _ = _
    rw [parseTokens_one (name ++ ' ' :: v) _ name v htokstrip htokne
        (pySplitWs1_concat name v hnws hvhead hv)]
  have hmain : parseChars (text ++ ' ' :: '-' :: '-' :: (name ++ ' ' :: v)) =
      alInsert [("prompt", PyVal.str (String.mk (stripChars (text ++ [' ']))))]
        (String.mk name) (convert_value (String.mk v)) := by
    unfold parseChars
    rw [hcore]
  have hflagsParse : ∀ (flags : List (List Char × List Char)),
      (∀ p ∈ flags, p.1 ≠ [] ∧ (∀ c ∈ p.1, isPySpace c = false) ∧ firstDDIdx p.1 = none ∧
        p.2 ≠ [] ∧ stripChars p.2 = p.2 ∧ firstDDIdx p.2 = none) →
      parseChars (text ++ flagsChars ((name, v) :: flags)) =
        ((name, v) :: flags).foldl
          (fun d p => alInsert d (String.mk p.1) (convert_value (String.mk p.2)))
          [("prompt", PyVal.str (String.mk (stripChars (text ++ [' ']))))] := by
    intro flags hflags
    have hcore2 : parse_command_params_core (text ++ flagsChars ((name, v) :: flags)) =
        .ok (flags.foldl
          (fun d p => alInsert d (String.mk p.1) (convert_value (String.mk p.2)))
          (alInsert [("prompt", PyVal.str (String.mk (stripChars (text ++ [' ']))))]
            (String.mk name) (convert_value (String.mk v)))) := by
      show parse_command_params_core
          (text ++ ' ' :: '-' :: '-' :: (name ++ ' ' :: (v ++ flagsChars flags))) = _
      rw [parse_core_marker
          (firstDD_append_marker htext (name ++ ' ' :: (v ++ flagsChars flags)))]
      rw [drop_len_succ_append, take_len_succ_append]
      have hparamstrip2 : stripChars ('-' :: '-' :: (name ++ ' ' :: (v ++ flagsChars flags))) =
          '-' :: '-' :: (name ++ ' ' :: (v ++ flagsChars flags)) := by
        apply stripChars_eq_self
        · intro c hc
          rw [List.head?_cons] at hc
          injection hc with hc'
          rw [← hc']
          rfl
        · intro c hc
          have hshape2 : '-' :: '-' :: (name ++ ' ' :: (v ++ flagsChars flags)) =
              ('-' :: '-' :: (name ++ [' '])) ++ (v ++ flagsChars flags) := by
            simp
          rw [hshape2] at hc
          have hvfne : v ++ flagsChars flags ≠ [] := by
            intro he
            exact hv (List.append_eq_nil.mp he).1
          rw [getLast?_append_right _ hvfne] at hc
          exact flags_getLast flags
            (fun p hp => ⟨(hflags p hp).2.2.2.1, (hflags p hp).2.2.2.2.1⟩)
            v hv hvlast c hc
      rw [hparamstrip2]
      rw [show splitOnDD ('-' :: '-' :: (name ++ ' ' :: (v ++ flagsChars flags))) =
        [] :: splitOnDD (name ++ ' ' :: (v ++ flagsChars flags)) from by
          rw [splitOnDD, if_pos ⟨rfl, rfl⟩]]
      show parseTokens (splitOnDD (name ++ ' ' :: (v ++ flagsChars flags))) _ = _
      exact parse_flags flags name v _ hname hnws hnameDD hv hvstrip hvDD hflags
    unfold parseChars
    rw [hcore2]
    rfl
  refine ⟨hmain, ?_, hflagsParse, ?_⟩
  intro s hs hnp hconv
  subst hnp
  have hp : parse_command_params s = [("prompt", PyVal.str (String.mk v))] := by
    unfold parse_command_params
    rw [hs, hmain, hconv]
    rfl
  refine ⟨hp, ?_⟩
  have hne : String.mk v ≠ "" := by
    intro he
    exact hv (by simpa using congrArg String.data he)
  simp only [buildRequest]
  rw [hp]
  have hg1 : alGetD [("prompt", PyVal.str (String.mk v))] "prompt" (PyVal.str "") =
      PyVal.str (String.mk v) := by
    simp [alGetD, alGet]
  rw [hg1]
  simp only [pyStripVal]
  have hps : pyStrip (String.mk v) = String.mk v := by
    show String.mk (stripChars v) = String.mk v
    rw [hvstrip]
  rw [hps, if_neg hne]
  have hg2 : alGetD [("prompt", PyVal.str (String.mk v))] "aspect_ratio" (PyVal.str "1:1") =
      PyVal.str "1:1" := by
    simp [alGetD, alGet]
  rw [hg2]
  rw [show fuzzy_match_py (PyVal.str "1:1") AVAILABLE_ASPECT_RATIOS "1:1" =
    Except.ok "1:1" from rfl]
  show afterImage [("prompt", PyVal.str (String.mk v))]
      [("prompt", PyVal.str (String.mk v)), ("aspect_ratio", PyVal.str "1:1")] "1:1" = _
  unfold afterImage
  rw [show alGet [("prompt", PyVal.str (String.mk v))] "image_prompt" = (none : Option PyVal)
    from by simp [alGet]]
  show afterDims [("prompt", PyVal.str (String.mk v))]
      [("prompt", PyVal.str (String.mk v)), ("aspect_ratio", PyVal.str "1:1")] "1:1" = _
  unfold afterDims
  rw [if_neg (by decide : ¬("1:1" : String) = "custom")]
  unfold afterTail
  rw [show addTail [("prompt", PyVal.str (String.mk v))]
      [("prompt", PyVal.str (String.mk v)), ("aspect_ratio", PyVal.str "1:1")] =
    .ok [("prompt", PyVal.str (String.mk v)), ("aspect_ratio", PyVal.str "1:1")] from by
      simp [addTail, tailStep, alGet]]
  intro flags hflags k
  rw [hflagsParse flags hflags]
  exact alGet_foldl_insert ((name, v) :: flags) _ k

/-- C10 witness: 'a cat --prompt hello' parses to prompt "hello" and the
payload sent carries prompt "hello"; for the repeated flag in
'x --seed 1 --seed 2' the parse is the two-step dict fold and the stored
seed is the last occurrence's value 2. -/
theorem C10_prompt_flag_overrides_witness :
    (parse_command_params "a cat --prompt hello" = [("prompt", PyVal.str "hello")] ∧
      buildRequest "a cat --prompt hello" =
        .send [("prompt", PyVal.str "hello"), ("aspect_ratio", PyVal.str "1:1")]) ∧
    parse_command_params "x --seed 1 --seed 2" =
      [("prompt", PyVal.str "x"), ("seed", PyVal.int 2)] ∧
    alGet (parse_command_params "x --seed 1 --seed 2") "seed" = some (PyVal.int 2) := by
  refine ⟨?_, ?_, ?_⟩
  · exact (C10_prompt_flag_overrides "a cat".data "prompt".data "hello".data rfl (by decide)
      (by decide) rfl (by decide) rfl rfl).2.1 "a cat --prompt hello" rfl rfl rfl
  · exact (C10_prompt_flag_overrides "x".data "seed".data "1".data rfl (by decide)
      (by decide) rfl (by decide) rfl rfl).2.2.1 [("seed".data, "2".data)] (by decide)
  · exact (C10_prompt_flag_overrides "x".data "seed".data "1".data rfl (by decide)
      (by decide) rfl (by decide) rfl rfl).2.2.2 [("seed".data, "2".data)] (by decide) "seed"

end RFP
